import Mathlib

/-!
# Verification of the churn-risk snapshot pipeline

Shallow embedding of `src/churn_risk_snapshot.py`: column-name
normalisation (`to_snake_case`, `standardise_columns`), churn-flag
mapping (`map_churn_flag`) and the payment-status aggregation
(`churn_by_payment`).

Modelling conventions:
* A pandas cell is `Cell`: a string, an integer, or the missing value
  (`NaN`).  `astype(str)` renders `NaN` as the literal string "nan",
  exactly as pandas does.
* A `DataFrame` is a list of named columns (pandas is column-oriented);
  all columns of a well-formed frame have the same length, which is
  stated as a hypothesis where it matters.
* Character classes model the ASCII fragment of Python's regex classes:
  `\w` is `[A-Za-z0-9_]` and `\s` is `[ \t\n\r\v\f]`; `str.lower` /
  `str.strip` are modelled on the same fragment.
* Rational numbers stand in for float64.  `churned / users` is exact in
  `ℚ`, and `mkGroupRow` rounds it with an exact-rational
  round-half-to-even (`roundHalfEven`) — an idealisation of numpy's
  float64 scale-by-1000 / rint / unscale, which can select the other
  thousandth when binary64 representation error moves the scaled value
  across a halfway point: 203/400 scales to the double
  507.49999999999994… and rints to 507, where the exact 507.5 rounds
  half-even to 508.  The faithful binary64 semantics is the relation
  `Fl64` / `NpRound3Float`, against which C8 is corrected.  The claims
  proved with the idealised rate do not depend on the difference: the
  scenarios' concrete rates land on thousandths both semantics select
  identically, and the interval bounds and the descending ordering are
  insensitive to which thousandth a halfway case picks.
* `sort_values(ascending=False)` in pandas computes an *ascending*
  argsort and reverses it (`nargsort`), and numpy's quicksort runs
  insertion sort (a stable sort) on the short arrays arising here, so
  the descending sort is modelled as the reverse of a stable ascending
  insertion sort.  The same mechanism underlies `value_counts()`.
* Raised exceptions (`KeyError` for the guarded column checks and for
  the missing `churn_flag` during `agg`, `ValueError` for unmapped churn
  values) become an `Except PipelineError` result.
-/

/-- A pandas cell: a string, an integer, or the missing value `NaN`. -/
inductive Cell where
  | str (s : String)
  | int (n : Int)
  | nan
deriving DecidableEq, Repr

/-- Python `str(x)`: identity on strings, decimal rendering of ints, and
the literal `"nan"` for the float `NaN` (what `astype(str)` produces). -/
def astypeStr : Cell → String
  | .str s => s
  | .int n => toString n
  | .nan => "nan"

/-- ASCII fragment of Python's whitespace class `\s`. -/
def isPySpace (c : Char) : Bool :=
  c = ' ' || c = '\t' || c = '\n' || c = '\r' || c = '\x0b' || c = '\x0c'

/-- ASCII fragment of Python's word class `\w`: `[A-Za-z0-9_]`. -/
def isWordChar (c : Char) : Bool :=
  c.isAlphanum || c = '_'

/-- `str.strip()` on the character list: drop leading and trailing
whitespace. -/
def pyStripChars (l : List Char) : List Char :=
  ((l.dropWhile isPySpace).reverse.dropWhile isPySpace).reverse

/-- `str.strip()`. -/
def pyStrip (s : String) : String :=
  ⟨pyStripChars s.data⟩

/-- `str.lower()` (ASCII). -/
def pyLower (s : String) : String :=
  ⟨s.data.map Char.toLower⟩

/-- One pass of `re.sub(r"\s+", "_", ...)`: each maximal whitespace run
becomes a single underscore.  The boolean records whether the previous
character belonged to a whitespace run. -/
def squashWsAux : Bool → List Char → List Char
  | _, [] => []
  | prevSpace, c :: l =>
    if isPySpace c then
      (if prevSpace then [] else ['_']) ++ squashWsAux true l
    else
      c :: squashWsAux false l

/-- `re.sub(r"\s+", "_", ...)` on a character list. -/
def squashWs (l : List Char) : List Char :=
  squashWsAux false l

/-- `to_snake_case` from the source: strip, lower-case, delete the
characters matching `[^\w\s]`, then replace whitespace runs by `_`. -/
def to_snake_case (s : String) : String :=
  ⟨squashWs ((((pyStripChars s.data).map Char.toLower).filter
      (fun c => isWordChar c || isPySpace c)))⟩

/-- A data frame: named columns, in order (pandas is column-oriented). -/
structure DataFrame where
  cols : List (String × List Cell)
deriving DecidableEq, Repr

/-- The column labels, in order (`df.columns`). -/
def DataFrame.colNames (df : DataFrame) : List String :=
  df.cols.map Prod.fst

/-- `df[name]`: the first column with that label, if any. -/
def DataFrame.getCol (df : DataFrame) (name : String) : Option (List Cell) :=
  (df.cols.find? (fun p => p.1 = name)).map Prod.snd

/-- `df[name] = v`: overwrite every column with that label, or append a
new column when the label is absent. -/
def DataFrame.setCol (df : DataFrame) (name : String) (v : List Cell) : DataFrame :=
  if name ∈ df.colNames then
    ⟨df.cols.map (fun p => if p.1 = name then (p.1, v) else p)⟩
  else
    ⟨df.cols ++ [(name, v)]⟩

/-- `standardise_columns`: copy the frame, renaming every column with
`to_snake_case`. -/
def standardise_columns (df : DataFrame) : DataFrame :=
  ⟨df.cols.map (fun p => (to_snake_case p.1, p.2))⟩

/-- The errors the pipeline raises: the guarded `KeyError`s (which quote
up to 15 available column names), the `ValueError` for unmapped churn
values (which quotes the up-to-10 most frequent offenders with counts),
and the `KeyError` pandas itself raises when `agg` references a
`churn_flag` column that does not exist. -/
inductive PipelineError where
  | missingColumn (col : String) (available : List String)
  | unmappedValues (examples : List (String × Nat))
  | aggKeyError (col : String)
deriving DecidableEq, Repr

/-- Insert `a` into `l` before the first element `b` with `¬ le a b`
... i.e. keep skipping while the existing element is allowed to stay
before `a`.  Inserting after equals makes the overall sort stable. -/
def insertLe {α : Type} (le : α → α → Bool) (a : α) : List α → List α
  | [] => [a]
  | b :: l => if le a b then a :: b :: l else b :: insertLe le a l

/-- Stable ascending insertion sort (what numpy's sort does on the short
arrays this program produces). -/
def insSort {α : Type} (le : α → α → Bool) : List α → List α
  | [] => []
  | a :: l => insertLe le a (insSort le l)

/-- pandas `sort_values(ascending=False)`: an ascending argsort,
reversed (`nargsort` reverses the ascending permutation). -/
def pandasSortDesc {α : Type} (le : α → α → Bool) (l : List α) : List α :=
  (insSort le l).reverse

/-- First-appearance-ordered distinct values of a list (the order a
hash table hands back the unique values). -/
def firstUniques (l : List String) : List String :=
  l.foldl (fun acc a => if a ∈ acc then acc else acc ++ [a]) []

/-- `Series.value_counts()`: distinct values with their multiplicities,
sorted by count descending (pandas sorts the counts ascending and
reverses). -/
def value_counts (l : List String) : List (String × Nat) :=
  pandasSortDesc (fun p q => decide (p.2 ≤ q.2))
    ((firstUniques l).map (fun v => (v, l.count v)))

/-- The normalisation `map_churn_flag` applies to the churn column:
`astype(str).str.strip().str.lower()`. -/
def normChurn (c : Cell) : String :=
  pyLower (pyStrip (astypeStr c))

/-- `Series.map({"yes": 1, "no": 0})`: unmatched values become `NaN`. -/
def churnFlagOf (s : String) : Cell :=
  if s = "yes" then .int 1 else if s = "no" then .int 0 else .nan

/-- `map_churn_flag`: guard the churn column, normalise it in place,
derive `churn_flag`, and fail when any row is unmapped, quoting the
up-to-10 most frequent offending (normalised) values with counts. -/
def map_churn_flag (df : DataFrame) (churn_col : String) : Except PipelineError DataFrame :=
  match df.getCol churn_col with
  | none => .error (.missingColumn churn_col (df.colNames.take 15))
  | some col =>
    let normed := col.map normChurn
    let flags := normed.map churnFlagOf
    if Cell.nan ∈ flags then
      let bad := normed.filter (fun s => churnFlagOf s = Cell.nan)
      .error (.unmappedValues ((value_counts bad).take 10))
    else
      .ok ((df.setCol churn_col (normed.map Cell.str)).setCol "churn_flag" flags)

/-- The default churn column name the orchestrator passes. -/
def churn_col_default : String := "churn_status_yesno"

/-- The default payment column name the orchestrator passes. -/
def payment_col_default : String := "payment_history_ontimedelayed"

/-- The preprocessing `churn_by_payment` applies to the payment column:
`astype(str).str.strip()` (no case-folding, unlike the churn mapper). -/
def prepPayment (c : Cell) : String :=
  pyStrip (astypeStr c)

/-- `sum` over a `churn_flag` group: integers add up, `NaN` is skipped
(pandas' `sum` ignores missing values). -/
def cellToInt : Cell → Int
  | .int n => n
  | _ => 0

/-- Round-half-to-even of the fraction `p / q` (for `q > 0`), computed
on integers: numpy's `rint` applied to an exact rational.  `p / q` is
the floor of the quotient, `p - p / q * q` the remainder, and twice the
remainder against `q` decides the direction; exact halves go to the
even integer. -/
def roundHalfEven (p : Int) (q : Int) : Int :=
  if 2 * (p - p / q * q) < q then p / q
  else if q < 2 * (p - p / q * q) then p / q + 1
  else if (p / q) % 2 = 0 then p / q else p / q + 1

/-- One output row of the summary table. -/
structure SummaryRow where
  payment_status : String
  users : Nat
  churned : Int
  churn_rate : ℚ
deriving DecidableEq, Repr

/-- Python `<=` on strings (lexicographic by code point). -/
def charListLe : List Char → List Char → Bool
  | [], _ => true
  | _ :: _, [] => false
  | a :: as, b :: bs => if a < b then true else if b < a then false else charListLe as bs

/-- Python `<=` on strings. -/
def strLe (a b : String) : Bool :=
  charListLe a.data b.data

/-- The summary row `groupby(...).agg(...)` builds for one group key:
`users` counts the rows of the group, `churned` sums their flags, and
`churn_rate` is `round(churned / users, 3)` (`mkRat _ 1000` of the
round-half-even numerator), computed in exact rational arithmetic.
This is an idealisation of the program's float64 evaluation that
represents the selected thousandth exactly; see `NpRound3Float` and the
C8 correction for the halfway inputs where float64 selects the other
thousandth. -/
def mkGroupRow (pairs : List (String × Cell)) (k : String) : SummaryRow :=
  let grp := pairs.filter (fun p => p.1 = k)
  let churned := (grp.map (fun p => cellToInt p.2)).sum
  { payment_status := k
    users := grp.length
    churned := churned
    churn_rate := mkRat (roundHalfEven (1000 * churned) (grp.length : Int)) 1000 }

/-- Comparison `sort_values("churn_rate")` uses. -/
def rateLe (a b : SummaryRow) : Bool :=
  decide (a.churn_rate ≤ b.churn_rate)

/-- `churn_by_payment`: guard the payment column, trim its string form,
group rows by it (group keys come back sorted ascending, `groupby`'s
default), aggregate `users`/`churned`, derive the rounded `churn_rate`,
and sort descending by it.  The `agg` reference to `churn_flag` raises
pandas' own `KeyError` when that column is absent. -/
def churn_by_payment (df : DataFrame) (payment_col : String) :
    Except PipelineError (List SummaryRow) :=
  match df.getCol payment_col with
  | none => .error (.missingColumn payment_col (df.colNames.take 15))
  | some payRaw =>
    match df.getCol "churn_flag" with
    | none => .error (.aggKeyError "churn_flag")
    | some flags =>
      let pay := payRaw.map prepPayment
      let pairs := pay.zip flags
      let keys := insSort strLe (firstUniques pay)
      .ok (pandasSortDesc rateLe (keys.map (mkGroupRow pairs)))

/-- Round-half-to-even of a rational, stated through `Int.floor` (the
specification-level counterpart of `roundHalfEven`). -/
def rintQ (x : ℚ) : Int :=
  if Int.fract x < 1/2 then ⌊x⌋
  else if 1/2 < Int.fract x then ⌊x⌋ + 1
  else if ⌊x⌋ % 2 = 0 then ⌊x⌋ else ⌊x⌋ + 1

/-- `round(x, 3)` with round-half-to-even semantics, as the spec states
it: scale by 1000, round half to even, unscale. -/
def round3 (x : ℚ) : ℚ :=
  (rintQ (1000 * x) : ℚ) / 1000

/-- The spec's normalisation pipeline, step by step: trim the
surrounding whitespace, lower-case, remove every character that is
neither a word character nor whitespace, then replace each whitespace
run with a single underscore. -/
def spec_normalize (s : String) : String :=
  let trimmed := pyStrip s
  let lowered := pyLower trimmed
  let kept : String := ⟨lowered.data.filter (fun c => isWordChar c || isPySpace c)⟩
  ⟨squashWs kept.data⟩

/-- The summary rows exactly as `groupby(..., dropna=False).agg(...)
.reset_index()` produces them, before the final `sort_values`: one row
per distinct trimmed payment value, keys in ascending order. -/
def churn_summary_presort (df : DataFrame) (payment_col : String) : List SummaryRow :=
  match df.getCol payment_col, df.getCol "churn_flag" with
  | some payRaw, some flags =>
    let pay := payRaw.map prepPayment
    (insSort strLe (firstUniques pay)).map (mkGroupRow (pay.zip flags))
  | _, _ => []

/-- Replace the missing payment cells by `c` (used to state that `NaN`
payment values are indistinguishable from literal `"nan"` strings). -/
def substPaymentNan (df : DataFrame) (c : Cell) : DataFrame :=
  ⟨df.cols.map (fun p =>
    if p.1 = payment_col_default then
      (p.1, p.2.map (fun x => if x = Cell.nan then c else x))
    else p)⟩

/-- The end-to-end scenario input: rows
`("Yes", "On-time")`, `("No", "On-time")`, `("Yes", "Delayed")`. -/
def dfScenario : DataFrame :=
  ⟨[("churn_status_yesno", [.str "Yes", .str "No", .str "Yes"]),
    ("payment_history_ontimedelayed", [.str "On-time", .str "On-time", .str "Delayed"])]⟩

/-- Two payment groups, "A" and "B", with the same churn rate 1/2. -/
def dfTies : DataFrame :=
  ⟨[("payment_history_ontimedelayed", [.str "A", .str "A", .str "B", .str "B"]),
    ("churn_flag", [.int 1, .int 0, .int 1, .int 0])]⟩

/-- One churn value that only matches after trimming and case-folding. -/
def dfStrip : DataFrame :=
  ⟨[("churn_status_yesno", [.str " Yes "])]⟩

/-- A frame without either expected column. -/
def dfMissing : DataFrame :=
  ⟨[("name", [.str "Ada"]), ("plan", [.str "Pro"])]⟩

/-- A small valid input for the churn mapper. -/
def dfYesNo : DataFrame :=
  ⟨[("churn_status_yesno", [.str "Yes ", .str " no"])]⟩

/-- A payment column holding a missing value, a literal "nan" and a
padded " nan ", plus flags. -/
def dfNan : DataFrame :=
  ⟨[("payment_history_ontimedelayed", [.nan, .str "nan", .str " nan "]),
    ("churn_flag", [.int 1, .int 0, .int 0])]⟩

/-- Flags already mapped, two payment groups of sizes 2 and 1. -/
def dfFlags : DataFrame :=
  ⟨[("payment_history_ontimedelayed", [.str "On-time", .str "On-time", .str "Delayed"]),
    ("churn_flag", [.int 1, .int 0, .int 1])]⟩

/-- A churn column next to an untouched extra column. -/
def dfExtra : DataFrame :=
  ⟨[("churn_status_yesno", [.str "No"]), ("region", [.str "EU"])]⟩

/-- Binary64 (IEEE double) rounding, for the C8 correction: the double
`m / 2 ^ k`, with 53-bit normalised significand `2^52 ≤ m < 2^53`, is
the round-to-nearest-ties-even image of the positive rational `x`.  The
strict half-ulp window pins the nearest double uniquely whenever `x` is
not exactly halfway between two doubles (no halfway case occurs in the
uses below); at the binade boundary `m = 2 ^ 52` the grid is finer just
below `m / 2 ^ k`, so there the window is trusted only from the
boundary point upwards (last conjunct). -/
def Fl64 (x : ℚ) (m : Int) (k : Nat) : Prop :=
  2 ^ 52 ≤ m ∧ m < 2 ^ 53 ∧
    mkRat (2 * m - 1) (2 ^ (k + 1)) < x ∧ x < mkRat (2 * m + 1) (2 ^ (k + 1)) ∧
    (m = 2 ^ 52 → mkRat m (2 ^ k) ≤ x)

/-- The float64 evaluation of `round(c / u, 3)` exactly as the source
performs it on the summary columns: divide the int64 cells in binary64
(they convert exactly below `2^53`), multiply by 1000.0 in binary64
(`np.round` scales by `10 ^ 3`), apply `rint` — round half to even,
exact on a double, hence `rintQ` of the double's rational value — and
divide by 1000.0 in binary64.  `y` is the rational value of the
resulting double. -/
def NpRound3Float (c u : Int) (y : ℚ) : Prop :=
  ∃ (m1 : Int) (k1 : Nat) (m2 : Int) (k2 : Nat) (n : Int) (m3 : Int) (k3 : Nat),
    Fl64 ((c : ℚ) / (u : ℚ)) m1 k1 ∧
    Fl64 (mkRat (1000 * m1) (2 ^ k1)) m2 k2 ∧
    n = rintQ (mkRat m2 (2 ^ k2)) ∧
    Fl64 (mkRat n 1000) m3 k3 ∧
    y = mkRat m3 (2 ^ k3)

deriving instance DecidableEq for Except

/-! ## Sorting lemmas -/

theorem insertLe_perm {α : Type} (le : α → α → Bool) (a : α) (l : List α) :
    List.Perm (insertLe le a l) (a :: l) := by
  induction l with
  | nil => simp [insertLe]
  | cons b t ih =>
    by_cases h : le a b
    · simp [insertLe, h]
    · simp only [insertLe, h, Bool.false_eq_true, if_false]
      exact (ih.cons b).trans (List.Perm.swap a b t)

theorem insSort_perm {α : Type} (le : α → α → Bool) (l : List α) :
    List.Perm (insSort le l) l := by
  induction l with
  | nil => exact List.Perm.refl []
  | cons a t ih => exact (insertLe_perm le a (insSort le t)).trans (ih.cons a)

theorem mem_insSort {α : Type} (le : α → α → Bool) {l : List α} {x : α} :
    x ∈ insSort le l ↔ x ∈ l :=
  (insSort_perm le l).mem_iff

theorem pandasSortDesc_perm {α : Type} (le : α → α → Bool) (l : List α) :
    List.Perm (pandasSortDesc le l) l :=
  (List.reverse_perm (insSort le l)).trans (insSort_perm le l)

theorem mem_pandasSortDesc {α : Type} (le : α → α → Bool) {l : List α} {x : α} :
    x ∈ pandasSortDesc le l ↔ x ∈ l :=
  (pandasSortDesc_perm le l).mem_iff

theorem pairwise_insertLe {α : Type} {le : α → α → Bool}
    (htot : ∀ a b, le a b = true ∨ le b a = true)
    (htrans : ∀ a b c, le a b = true → le b c = true → le a c = true)
    (a : α) {l : List α} (h : l.Pairwise (fun x y => le x y = true)) :
    (insertLe le a l).Pairwise (fun x y => le x y = true) := by
  induction l with
  | nil => simp [insertLe]
  | cons b t ih =>
    rcases List.pairwise_cons.1 h with ⟨hb, ht⟩
    by_cases hab : le a b
    · simp only [insertLe, hab, if_true]
      refine List.pairwise_cons.2 ⟨?_, h⟩
      intro y hy
      rcases List.mem_cons.1 hy with rfl | hyt
      · exact hab
      · exact htrans a b y hab (hb y hyt)
    · simp only [insertLe, hab, Bool.false_eq_true, if_false]
      refine List.pairwise_cons.2 ⟨?_, ih ht⟩
      intro y hy
      rcases List.mem_cons.1 ((insertLe_perm le a t).mem_iff.1 hy) with rfl | hyt
      · rcases htot y b with hyb | hby
        · exact absurd hyb hab
        · exact hby
      · exact hb y hyt

theorem pairwise_insSort {α : Type} {le : α → α → Bool}
    (htot : ∀ a b, le a b = true ∨ le b a = true)
    (htrans : ∀ a b c, le a b = true → le b c = true → le a c = true)
    (l : List α) :
    (insSort le l).Pairwise (fun x y => le x y = true) := by
  induction l with
  | nil => simp [insSort]
  | cons a t ih => exact pairwise_insertLe htot htrans a ih

theorem pairwise_pandasSortDesc {α : Type} {le : α → α → Bool}
    (htot : ∀ a b, le a b = true ∨ le b a = true)
    (htrans : ∀ a b c, le a b = true → le b c = true → le a c = true)
    (l : List α) :
    (pandasSortDesc le l).Pairwise (fun x y => le y x = true) := by
  rw [pandasSortDesc]
  exact List.pairwise_reverse.2 (pairwise_insSort htot htrans l)

/-! ## `firstUniques` lemmas -/

theorem mem_firstUniques_aux (l : List String) (acc : List String) (x : String) :
    x ∈ l.foldl (fun acc a => if a ∈ acc then acc else acc ++ [a]) acc ↔
      x ∈ acc ∨ x ∈ l := by
  induction l generalizing acc with
  | nil => simp
  | cons a t ih =>
    rw [List.foldl_cons, ih]
    by_cases ha : a ∈ acc
    · simp only [ha, if_true, List.mem_cons]
      constructor
      · rintro (hx | hx)
        · exact Or.inl hx
        · exact Or.inr (Or.inr hx)
      · rintro (hx | rfl | hx)
        · exact Or.inl hx
        · exact Or.inl ha
        · exact Or.inr hx
    · simp only [ha, if_false, List.mem_append, List.mem_singleton, List.mem_cons]
      tauto

theorem mem_firstUniques {l : List String} {x : String} :
    x ∈ firstUniques l ↔ x ∈ l := by
  rw [firstUniques, mem_firstUniques_aux]
  simp

theorem nodup_firstUniques_aux (l : List String) (acc : List String)
    (h : acc.Nodup) :
    (l.foldl (fun acc a => if a ∈ acc then acc else acc ++ [a]) acc).Nodup := by
  induction l generalizing acc with
  | nil => simpa
  | cons a t ih =>
    rw [List.foldl_cons]
    by_cases ha : a ∈ acc
    · simpa [ha] using ih acc h
    · refine ih _ ?_
      simp only [ha, if_false]
      exact List.nodup_append.2 ⟨h, List.nodup_singleton a, by simpa using ha⟩

theorem nodup_firstUniques (l : List String) : (firstUniques l).Nodup :=
  nodup_firstUniques_aux l [] List.nodup_nil

/-! ## `DataFrame` access lemmas -/

theorem getCol_eq_none_iff (df : DataFrame) (n : String) :
    df.getCol n = none ↔ n ∉ df.colNames := by
  rw [DataFrame.getCol, Option.map_eq_none', List.find?_eq_none, DataFrame.colNames]
  constructor
  · intro h hn
    rcases List.mem_map.1 hn with ⟨p, hp, hpn⟩
    exact absurd (decide_eq_true hpn) (h p hp)
  · intro h p hp
    intro hpe
    exact h (List.mem_map.2 ⟨p, hp, of_decide_eq_true hpe⟩)

theorem getCol_isSome_of_mem {df : DataFrame} {n : String}
    (h : n ∈ df.colNames) : ∃ v, df.getCol n = some v := by
  rcases ho : df.getCol n with _ | v
  · exact absurd ((getCol_eq_none_iff df n).1 ho) (not_not.2 h)
  · exact ⟨v, rfl⟩

theorem mem_of_getCol_eq_some {df : DataFrame} {n : String} {v : List Cell}
    (h : df.getCol n = some v) : n ∈ df.colNames := by
  by_contra hn
  rw [(getCol_eq_none_iff df n).2 hn] at h
  exact Option.noConfusion h

theorem find?_replace_eq (t : List (String × List Cell)) (n : String)
    (v : List Cell) :
    (t.map (fun p => if p.1 = n then (p.1, v) else p)).find?
        (fun p => decide (p.1 = n)) =
      (t.find? (fun p => decide (p.1 = n))).map (fun p => (p.1, v)) := by
  induction t with
  | nil => rfl
  | cons q t ih =>
    by_cases hq : q.1 = n
    · rw [List.map_cons, if_pos hq,
        List.find?_cons_of_pos _ (by simpa using hq),
        List.find?_cons_of_pos _ (by simpa using hq)]
      rfl
    · rw [List.map_cons, if_neg hq,
        List.find?_cons_of_neg _ (by simpa using hq),
        List.find?_cons_of_neg _ (by simpa using hq)]
      exact ih

theorem find?_replace_ne (t : List (String × List Cell)) {n m : String}
    (v : List Cell) (h : m ≠ n) :
    (t.map (fun p => if p.1 = n then (p.1, v) else p)).find?
        (fun p => decide (p.1 = m)) =
      t.find? (fun p => decide (p.1 = m)) := by
  induction t with
  | nil => rfl
  | cons q t ih =>
    by_cases hq : q.1 = m
    · have hqn : ¬ q.1 = n := by rw [hq]; exact h
      rw [List.map_cons, if_neg hqn,
        List.find?_cons_of_pos _ (by simpa using hq),
        List.find?_cons_of_pos _ (by simpa using hq)]
    · have hhead : ¬ ((if q.1 = n then (q.1, v) else q).1 = m) := by
        split
        · exact hq
        · exact hq
      rw [List.map_cons,
        List.find?_cons_of_neg _ (by simpa using hhead),
        List.find?_cons_of_neg _ (by simpa using hq)]
      exact ih

theorem getCol_setCol_self (df : DataFrame) (n : String) (v : List Cell) :
    (df.setCol n v).getCol n = some v := by
  rw [DataFrame.setCol]
  by_cases h : n ∈ df.colNames
  · rw [if_pos h]
    show ((df.cols.map (fun p => if p.1 = n then (p.1, v) else p)).find?
        (fun p => decide (p.1 = n))).map Prod.snd = some v
    rw [find?_replace_eq]
    rcases List.mem_map.1 h with ⟨p, hp, hpn⟩
    have hs : (df.cols.find? (fun p => decide (p.1 = n))).isSome = true :=
      List.find?_isSome.2 ⟨p, hp, by simpa using hpn⟩
    rcases Option.isSome_iff_exists.1 hs with ⟨q, hq⟩
    rw [hq]
    rfl
  · rw [if_neg h]
    show ((df.cols ++ [(n, v)]).find? (fun p => decide (p.1 = n))).map Prod.snd
        = some v
    rw [List.find?_append]
    have hnone : df.cols.find? (fun p => decide (p.1 = n)) = none := by
      have := (getCol_eq_none_iff df n).2 h
      rw [DataFrame.getCol, Option.map_eq_none'] at this
      exact this
    rw [hnone]
    simp [List.find?_cons_of_pos]

theorem getCol_setCol_other (df : DataFrame) {n m : String} (v : List Cell)
    (h : m ≠ n) : (df.setCol n v).getCol m = df.getCol m := by
  rw [DataFrame.setCol]
  by_cases hmem : n ∈ df.colNames
  · rw [if_pos hmem]
    show ((df.cols.map (fun p => if p.1 = n then (p.1, v) else p)).find?
        (fun p => decide (p.1 = m))).map Prod.snd = df.getCol m
    rw [find?_replace_ne _ v h]
    rfl
  · rw [if_neg hmem]
    show (((df.cols ++ [(n, v)])).find? (fun p => decide (p.1 = m))).map Prod.snd
        = df.getCol m
    rw [List.find?_append]
    have hsingle : ([(n, v)] : List (String × List Cell)).find?
        (fun p => decide (p.1 = m)) = none := by
      have : ¬ ((n, v).1 = m) := fun hnm => h hnm.symm
      simp [List.find?_cons_of_neg, this]
    rw [hsingle, Option.or_none]
    rfl

/-! ## Counting lemmas for the aggregation -/

theorem length_filter_split {α : Type} (p : α → Bool) (l : List α) :
    l.length = (l.filter p).length + (l.filter (fun a => !(p a))).length := by
  induction l with
  | nil => rfl
  | cons a t ih =>
    by_cases h : p a <;> simp [List.filter_cons, h, ih] <;> omega

theorem sum_group_sizes (keys : List String) (pairs : List (String × Cell))
    (hnd : keys.Nodup) (hcov : ∀ p ∈ pairs, p.1 ∈ keys) :
    (keys.map (fun k =>
        (pairs.filter (fun p => decide (p.1 = k))).length)).sum = pairs.length := by
  induction keys generalizing pairs with
  | nil =>
    have : pairs = [] := List.eq_nil_iff_forall_not_mem.2 (fun p hp =>
      absurd (hcov p hp) (List.not_mem_nil p.1))
    simp [this]
  | cons k ks ih =>
    have hknotin : k ∉ ks := (List.nodup_cons.1 hnd).1
    have hndks : ks.Nodup := (List.nodup_cons.1 hnd).2
    rw [List.map_cons, List.sum_cons]
    have hrest : ∀ j ∈ ks,
        (pairs.filter (fun p => decide (p.1 = j))).length =
          ((pairs.filter (fun p => !(decide (p.1 = k)))).filter
              (fun p => decide (p.1 = j))).length := by
      intro j hj
      rw [List.filter_filter]
      have : ∀ p ∈ pairs, (decide (p.1 = j)) = (decide (p.1 = j) && !decide (p.1 = k)) := by
        intro p _
        by_cases hpj : p.1 = j
        · have hjk : ¬ j = k := fun hjk => hknotin (hjk ▸ hj)
          simp [hpj, hjk]
        · simp [hpj]
      rw [List.filter_congr this]
    have hmapeq : ks.map (fun j => (pairs.filter (fun p => decide (p.1 = j))).length)
        = ks.map (fun j => ((pairs.filter (fun p => !(decide (p.1 = k)))).filter
            (fun p => decide (p.1 = j))).length) :=
      List.map_congr_left hrest
    rw [hmapeq, ih (pairs.filter (fun p => !(decide (p.1 = k)))) hndks ?hcov2]
    case hcov2 =>
      intro p hp
      rcases List.mem_filter.1 hp with ⟨hpp, hpk⟩
      rcases List.mem_cons.1 (hcov p hpp) with hk | hks
      · rw [hk] at hpk
        simp at hpk
      · exact hks
    exact (length_filter_split (fun p => decide (p.1 = k)) pairs).symm

theorem flags_length_split (l : List (String × Cell))
    (h : ∀ p ∈ l, p.2 = Cell.int 0 ∨ p.2 = Cell.int 1) :
    l.length = l.countP (fun p => decide (p.2 = Cell.int 1)) +
      l.countP (fun p => decide (p.2 = Cell.int 0)) := by
  induction l with
  | nil => rfl
  | cons a t ih =>
    have ha := h a (List.mem_cons_self a t)
    have ht := fun p hp => h p (List.mem_cons_of_mem a hp)
    rcases ha with h0 | h1
    · rw [List.countP_cons, List.countP_cons]
      simp only [h0]
      norm_num [ih ht]
      omega
    · rw [List.countP_cons, List.countP_cons]
      simp only [h1]
      norm_num [ih ht]
      omega

theorem flags_sum_eq_countP (l : List (String × Cell))
    (h : ∀ p ∈ l, p.2 = Cell.int 0 ∨ p.2 = Cell.int 1) :
    (l.map (fun p => cellToInt p.2)).sum =
      (l.countP (fun p => decide (p.2 = Cell.int 1)) : Int) := by
  induction l with
  | nil => rfl
  | cons a t ih =>
    have ha := h a (List.mem_cons_self a t)
    have ht := fun p hp => h p (List.mem_cons_of_mem a hp)
    rw [List.map_cons, List.sum_cons, List.countP_cons, ih ht]
    rcases ha with h0 | h1
    · simp [h0, cellToInt]
    · simp [h1, cellToInt]
      omega

theorem flags_sum_nonneg (l : List (String × Cell))
    (h : ∀ p ∈ l, p.2 = Cell.int 0 ∨ p.2 = Cell.int 1) :
    0 ≤ (l.map (fun p => cellToInt p.2)).sum := by
  rw [flags_sum_eq_countP l h]
  exact Int.natCast_nonneg _

theorem flags_sum_le_length (l : List (String × Cell))
    (h : ∀ p ∈ l, p.2 = Cell.int 0 ∨ p.2 = Cell.int 1) :
    (l.map (fun p => cellToInt p.2)).sum ≤ (l.length : Int) := by
  rw [flags_sum_eq_countP l h]
  exact_mod_cast List.countP_le_length _

/-! ## Rounding lemmas -/

theorem roundHalfEven_eq_rintQ (p : Int) (q : Nat) (hq : 0 < q) :
    roundHalfEven p (q : Int) = rintQ ((p : ℚ) / (q : ℚ)) := by
  have hqQ : (0 : ℚ) < (q : ℚ) := by exact_mod_cast hq
  have hne : (q : ℚ) ≠ 0 := ne_of_gt hqQ
  have hfl : ⌊(p : ℚ) / (q : ℚ)⌋ = p / (q : Int) :=
    Rat.floor_intCast_div_natCast p q
  have hfr0 : Int.fract ((p : ℚ) / (q : ℚ))
      = (p : ℚ) / (q : ℚ) - ((p / (q : Int) : Int) : ℚ) := by
    rw [Int.fract, hfl]
  have hfract : Int.fract ((p : ℚ) / (q : ℚ))
      = ((p - p / (q : Int) * (q : Int) : Int) : ℚ) / (q : ℚ) := by
    rw [hfr0]
    push_cast
    field_simp
    ring
  have hlt : Int.fract ((p : ℚ) / (q : ℚ)) < 1 / 2 ↔
      2 * (p - p / (q : Int) * (q : Int)) < (q : Int) := by
    rw [hfract, div_lt_div_iff₀ hqQ (by norm_num : (0 : ℚ) < 2)]
    norm_cast
    omega
  have hgt : 1 / 2 < Int.fract ((p : ℚ) / (q : ℚ)) ↔
      (q : Int) < 2 * (p - p / (q : Int) * (q : Int)) := by
    rw [hfract, div_lt_div_iff₀ (by norm_num : (0 : ℚ) < 2) hqQ]
    norm_cast
    omega
  simp only [roundHalfEven, rintQ, hfl]
  rcases lt_trichotomy (2 * (p - p / (q : Int) * (q : Int))) (q : Int) with h | h | h
  · rw [if_pos h, if_pos (hlt.2 h)]
  · rw [if_neg (by omega : ¬ 2 * (p - p / (q : Int) * (q : Int)) < (q : Int)),
      if_neg (by omega : ¬ (q : Int) < 2 * (p - p / (q : Int) * (q : Int))),
      if_neg (show ¬ Int.fract ((p : ℚ) / (q : ℚ)) < 1 / 2 by rw [hlt]; omega),
      if_neg (show ¬ 1 / 2 < Int.fract ((p : ℚ) / (q : ℚ)) by rw [hgt]; omega)]
  · rw [if_neg (by omega : ¬ 2 * (p - p / (q : Int) * (q : Int)) < (q : Int)),
      if_pos h,
      if_neg (show ¬ Int.fract ((p : ℚ) / (q : ℚ)) < 1 / 2 by rw [hlt]; omega),
      if_pos (hgt.2 h)]

theorem rintQ_nonneg {x : ℚ} (hx : 0 ≤ x) : 0 ≤ rintQ x := by
  have h0 : 0 ≤ ⌊x⌋ := Int.floor_nonneg.2 hx
  rw [rintQ]
  by_cases h1 : Int.fract x < 1 / 2
  · rw [if_pos h1]; exact h0
  · rw [if_neg h1]
    by_cases h2 : 1 / 2 < Int.fract x
    · rw [if_pos h2]; omega
    · rw [if_neg h2]
      by_cases h3 : ⌊x⌋ % 2 = 0
      · rw [if_pos h3]; exact h0
      · rw [if_neg h3]; omega

theorem rintQ_le_of_le {x : ℚ} {z : Int} (hx : x ≤ (z : ℚ)) : rintQ x ≤ z := by
  have hfl : ⌊x⌋ ≤ z := by
    have h := Int.floor_le_floor hx
    rwa [Int.floor_intCast] at h
  by_cases h1 : Int.fract x < 1 / 2
  · rw [rintQ, if_pos h1]; exact hfl
  · have hne : Int.fract x ≠ 0 := fun h0 => h1 (by rw [h0]; norm_num)
    have hlt : ⌊x⌋ < z := by
      rcases lt_or_eq_of_le hfl with h | h
      · exact h
      · exfalso
        apply hne
        have hxeq : x = (z : ℚ) := le_antisymm hx (h ▸ Int.floor_le x)
        rw [hxeq, ← h, Int.fract_intCast]
    rw [rintQ, if_neg h1]
    by_cases h2 : 1 / 2 < Int.fract x
    · rw [if_pos h2]; omega
    · rw [if_neg h2]
      by_cases h3 : ⌊x⌋ % 2 = 0
      · rw [if_pos h3]; omega
      · rw [if_neg h3]; omega

theorem churnRate_eq_round3 (c : Int) (u : Nat) (hu : 0 < u) :
    mkRat (roundHalfEven (1000 * c) (u : Int)) 1000 = round3 ((c : ℚ) / (u : ℚ)) := by
  have harg : (1000 : ℚ) * ((c : ℚ) / (u : ℚ)) = ((1000 * c : Int) : ℚ) / (u : ℚ) := by
    push_cast
    ring
  rw [round3, harg, ← roundHalfEven_eq_rintQ (1000 * c) u hu, Rat.mkRat_eq_div]
  norm_num

theorem churnRate_bounds (c : Int) (u : Nat) (hu : 0 < u) (hc0 : 0 ≤ c)
    (hcu : c ≤ (u : Int)) :
    0 ≤ mkRat (roundHalfEven (1000 * c) (u : Int)) 1000 ∧
      mkRat (roundHalfEven (1000 * c) (u : Int)) 1000 ≤ 1 := by
  rw [churnRate_eq_round3 c u hu, round3]
  have huQ : (0 : ℚ) < (u : ℚ) := by exact_mod_cast hu
  have hx0 : 0 ≤ (c : ℚ) / (u : ℚ) :=
    div_nonneg (by exact_mod_cast hc0) (le_of_lt huQ)
  have hx1 : (c : ℚ) / (u : ℚ) ≤ 1 := by
    rw [div_le_one huQ]
    exact_mod_cast hcu
  have hk0 : 0 ≤ rintQ (1000 * ((c : ℚ) / (u : ℚ))) :=
    rintQ_nonneg (by positivity)
  have hk1 : rintQ (1000 * ((c : ℚ) / (u : ℚ))) ≤ 1000 := by
    refine rintQ_le_of_le ?_
    push_cast
    nlinarith
  constructor
  · exact div_nonneg (by exact_mod_cast hk0) (by norm_num)
  · rw [div_le_one (by norm_num : (0 : ℚ) < 1000)]
    exact_mod_cast hk1

/-! ## Character and `to_snake_case` lemmas -/

theorem toNat_ofNat_valid (n : Nat) (h : n.isValidChar) :
    (Char.ofNat n).toNat = n := by
  simp only [Char.ofNat]
  rw [dif_pos h]
  rfl

theorem toLower_toLower (c : Char) : c.toLower.toLower = c.toLower := by
  simp only [Char.toLower]
  by_cases h : c.toNat ≥ 65 ∧ c.toNat ≤ 90
  · rw [if_pos h]
    have hvalid : (c.toNat + 32).isValidChar := Or.inl (by omega)
    have ht : (Char.ofNat (c.toNat + 32)).toNat = c.toNat + 32 :=
      toNat_ofNat_valid _ hvalid
    rw [if_neg]
    rw [ht]
    omega
  · rw [if_neg h, if_neg h]

theorem squashWsAux_chars (l : List Char) (b : Bool) :
    ∀ c ∈ squashWsAux b l, (c ∈ l ∧ isPySpace c = false) ∨ c = '_' := by
  induction l generalizing b with
  | nil => intro c hc; simp [squashWsAux] at hc
  | cons a t ih =>
    intro c hc
    by_cases ha : isPySpace a
    · rw [squashWsAux, if_pos ha] at hc
      rcases List.mem_append.1 hc with hc1 | hc2
      · rcases b with _ | _
        · rcases List.mem_singleton.1 (by simpa using hc1) with rfl
          exact Or.inr rfl
        · simp at hc1
      · rcases ih true c hc2 with ⟨hmem, hns⟩ | h_
        · exact Or.inl ⟨List.mem_cons_of_mem a hmem, hns⟩
        · exact Or.inr h_
    · rw [squashWsAux, if_neg ha] at hc
      rcases List.mem_cons.1 hc with rfl | hct
      · exact Or.inl ⟨List.mem_cons_self c t, by simpa using ha⟩
      · rcases ih false c hct with ⟨hmem, hns⟩ | h_
        · exact Or.inl ⟨List.mem_cons_of_mem a hmem, hns⟩
        · exact Or.inr h_

theorem squashWsAux_eq_self (l : List Char)
    (h : ∀ c ∈ l, isPySpace c = false) : squashWsAux false l = l := by
  induction l with
  | nil => rfl
  | cons a t ih =>
    rw [squashWsAux, if_neg (by simp [h a (List.mem_cons_self a t)]),
      ih (fun c hc => h c (List.mem_cons_of_mem a hc))]

theorem dropWhile_eq_self_of_false {p : Char → Bool} {l : List Char}
    (h : ∀ c ∈ l, p c = false) : l.dropWhile p = l := by
  cases l with
  | nil => rfl
  | cons a t => rw [List.dropWhile_cons_of_neg (by simp [h a (List.mem_cons_self a t)])]

theorem pyStripChars_eq_self (l : List Char)
    (h : ∀ c ∈ l, isPySpace c = false) : pyStripChars l = l := by
  rw [pyStripChars, dropWhile_eq_self_of_false h,
    dropWhile_eq_self_of_false (fun c hc => h c (List.mem_reverse.1 hc)),
    List.reverse_reverse]

theorem to_snake_case_chars (s : String) :
    ∀ c ∈ (to_snake_case s).data,
      isPySpace c = false ∧ (isWordChar c || isPySpace c) = true ∧
        Char.toLower c = c := by
  intro c hc
  have hc2 : c ∈ squashWs ((((pyStripChars s.data).map Char.toLower).filter
      (fun c => isWordChar c || isPySpace c))) := hc
  rcases squashWsAux_chars _ false c hc2 with ⟨hmem, hns⟩ | rfl
  · rcases List.mem_filter.1 hmem with ⟨hmap, hkeep⟩
    rcases List.mem_map.1 hmap with ⟨c0, _, rfl⟩
    exact ⟨hns, hkeep, toLower_toLower c0⟩
  · refine ⟨by decide, by decide, by decide⟩

theorem to_snake_case_idem (s : String) :
    to_snake_case (to_snake_case s) = to_snake_case s := by
  have hchars := to_snake_case_chars s
  have hns : ∀ c ∈ (to_snake_case s).data, isPySpace c = false :=
    fun c hc => (hchars c hc).1
  have h1 : pyStripChars (to_snake_case s).data = (to_snake_case s).data :=
    pyStripChars_eq_self _ hns
  have h2 : (to_snake_case s).data.map Char.toLower = (to_snake_case s).data := by
    rw [List.map_congr_left (fun c hc => (hchars c hc).2.2)]
    simp
  have h3 : (to_snake_case s).data.filter (fun c => isWordChar c || isPySpace c)
      = (to_snake_case s).data :=
    List.filter_eq_self.2 (fun c hc => (hchars c hc).2.1)
  have h4 : squashWs (to_snake_case s).data = (to_snake_case s).data :=
    squashWsAux_eq_self _ hns
  show (⟨squashWs ((((pyStripChars (to_snake_case s).data).map Char.toLower).filter
      (fun c => isWordChar c || isPySpace c)))⟩ : String) = to_snake_case s
  rw [h1, h2, h3, h4]

theorem standardise_columns_idem (df : DataFrame) :
    standardise_columns (standardise_columns df) = standardise_columns df := by
  simp only [standardise_columns, List.map_map]
  congr 1
  refine List.map_congr_left (fun p _ => ?_)
  simp [Function.comp, to_snake_case_idem]

/-! ## Unfolding and payload lemmas for the pipeline stages -/

theorem churnFlagOf_eq_nan_iff (s : String) :
    churnFlagOf s = Cell.nan ↔ ¬(s = "yes" ∨ s = "no") := by
  by_cases h1 : s = "yes"
  · simp [churnFlagOf, h1]
  · by_cases h2 : s = "no" <;> simp [churnFlagOf, h1, h2]

theorem map_churn_flag_none {df : DataFrame} {ccol : String}
    (h : df.getCol ccol = none) :
    map_churn_flag df ccol =
      .error (.missingColumn ccol (df.colNames.take 15)) := by
  simp only [map_churn_flag, h]

theorem map_churn_flag_of_some {df : DataFrame} {ccol : String} {col : List Cell}
    (h : df.getCol ccol = some col) :
    map_churn_flag df ccol =
      if Cell.nan ∈ (col.map normChurn).map churnFlagOf then
        .error (.unmappedValues ((value_counts ((col.map normChurn).filter
          (fun s => churnFlagOf s = Cell.nan))).take 10))
      else
        .ok ((df.setCol ccol ((col.map normChurn).map Cell.str)).setCol
          "churn_flag" ((col.map normChurn).map churnFlagOf)) := by
  simp only [map_churn_flag, h]

theorem churn_by_payment_none {df : DataFrame} {pcol : String}
    (h : df.getCol pcol = none) :
    churn_by_payment df pcol =
      .error (.missingColumn pcol (df.colNames.take 15)) := by
  simp only [churn_by_payment, h]

theorem churn_by_payment_noflag {df : DataFrame} {pcol : String} {payRaw : List Cell}
    (hp : df.getCol pcol = some payRaw) (hf : df.getCol "churn_flag" = none) :
    churn_by_payment df pcol = .error (.aggKeyError "churn_flag") := by
  simp only [churn_by_payment, hp, hf]

theorem churn_by_payment_of_some {df : DataFrame} {pcol : String}
    {payRaw flags : List Cell}
    (hp : df.getCol pcol = some payRaw) (hf : df.getCol "churn_flag" = some flags) :
    churn_by_payment df pcol = .ok (pandasSortDesc rateLe
      ((insSort strLe (firstUniques (payRaw.map prepPayment))).map
        (mkGroupRow ((payRaw.map prepPayment).zip flags)))) := by
  simp only [churn_by_payment, hp, hf]

theorem mkGroupRow_payment_status (pairs : List (String × Cell)) (k : String) :
    (mkGroupRow pairs k).payment_status = k := rfl

theorem mkGroupRow_users (pairs : List (String × Cell)) (k : String) :
    (mkGroupRow pairs k).users =
      (pairs.filter (fun p => p.1 = k)).length := rfl

theorem mkGroupRow_churned (pairs : List (String × Cell)) (k : String) :
    (mkGroupRow pairs k).churned =
      ((pairs.filter (fun p => p.1 = k)).map (fun p => cellToInt p.2)).sum := rfl

theorem mkGroupRow_churn_rate (pairs : List (String × Cell)) (k : String) :
    (mkGroupRow pairs k).churn_rate =
      mkRat (roundHalfEven
        (1000 * ((pairs.filter (fun p => p.1 = k)).map (fun p => cellToInt p.2)).sum)
        ((pairs.filter (fun p => p.1 = k)).length : Int)) 1000 := rfl

theorem value_counts_mem {l : List String} {p : String × Nat}
    (hp : p ∈ value_counts l) : p.1 ∈ l ∧ p.2 = l.count p.1 := by
  rw [value_counts, mem_pandasSortDesc] at hp
  rcases List.mem_map.1 hp with ⟨v, hv, rfl⟩
  exact ⟨mem_firstUniques.1 hv, rfl⟩

theorem value_counts_sorted (l : List String) :
    (value_counts l).Pairwise (fun p q => q.2 ≤ p.2) := by
  refine (pairwise_pandasSortDesc ?_ ?_ _).imp ?_
  · intro a b
    rcases Nat.le_total a.2 b.2 with h | h
    · exact Or.inl (decide_eq_true h)
    · exact Or.inr (decide_eq_true h)
  · intro a b c hab hbc
    exact decide_eq_true (le_trans (of_decide_eq_true hab) (of_decide_eq_true hbc))
  · intro a b h
    exact of_decide_eq_true h

theorem pairwise_take_drop {α : Type} {R : α → α → Prop} {l : List α}
    (h : l.Pairwise R) (n : Nat) :
    ∀ a ∈ l.take n, ∀ b ∈ l.drop n, R a b := by
  rw [← List.take_append_drop n l] at h
  exact (List.pairwise_append.1 h).2.2

theorem rateLe_total (a b : SummaryRow) : rateLe a b = true ∨ rateLe b a = true := by
  rcases le_total a.churn_rate b.churn_rate with h | h
  · exact Or.inl (decide_eq_true h)
  · exact Or.inr (decide_eq_true h)

theorem rateLe_trans (a b c : SummaryRow) (hab : rateLe a b = true)
    (hbc : rateLe b c = true) : rateLe a c = true :=
  decide_eq_true (le_trans (of_decide_eq_true hab) (of_decide_eq_true hbc))

/-! ## Claim theorems -/

/-- C5 (confirmed): for every column name, `to_snake_case` equals the
spec's composition — trim surrounding whitespace, lower-case, remove all
characters that are neither word characters nor whitespace, then
replace each whitespace run with a single underscore — and in
particular it sends "Churn Status (Yes/No)" to "churn_status_yesno". -/
theorem c5_normalizer_matches_spec_composition :
    (∀ s : String, to_snake_case s = spec_normalize s) ∧
      to_snake_case "Churn Status (Yes/No)" = "churn_status_yesno" :=
  ⟨fun _ => rfl, by decide⟩

/-- C9 (confirmed): the column normaliser is idempotent, on every single
name and hence on a whole frame: `standardise_columns` applied twice is
`standardise_columns` applied once. -/
theorem c9_normalizer_idempotent :
    (∀ s : String, to_snake_case (to_snake_case s) = to_snake_case s) ∧
      ∀ df : DataFrame,
        standardise_columns (standardise_columns df) = standardise_columns df :=
  ⟨to_snake_case_idem, standardise_columns_idem⟩

/-- C2 (confirmed): on the input rows ("Yes","On-time"), ("No","On-time"),
("Yes","Delayed"), running `map_churn_flag` and then `churn_by_payment`
yields exactly the groups Delayed (users 1, churned 1, rate 1.0) and
On-time (users 2, churned 1, rate 0.5), in that order (`mkRat 1 2` is
the rational 0.5, as the final conjunct records). -/
theorem c2_end_to_end_scenario :
    (match map_churn_flag dfScenario churn_col_default with
      | .ok mapped => churn_by_payment mapped payment_col_default
      | .error e => .error e) =
      .ok [⟨"Delayed", 1, 1, 1⟩, ⟨"On-time", 2, 1, mkRat 1 2⟩] ∧
    (mkRat 1 2 : ℚ) = 1 / 2 :=
  ⟨by decide, by rw [Rat.mkRat_eq_div]; norm_num⟩

/-- C4 (corrected, counterexample): with two groups "A" and "B" that tie
at churn rate 0.5, the pre-sort summary lists "A" before "B" (ascending
group keys), but `churn_by_payment` returns "B" before "A": the
descending sort reverses tied rows instead of keeping their order, so
the stability conjunct of the claim is false. -/
theorem c4_ties_reversed_counterexample :
    churn_summary_presort dfTies payment_col_default =
      [⟨"A", 2, 1, mkRat 1 2⟩, ⟨"B", 2, 1, mkRat 1 2⟩] ∧
    churn_by_payment dfTies payment_col_default =
      .ok [⟨"B", 2, 1, mkRat 1 2⟩, ⟨"A", 2, 1, mkRat 1 2⟩] :=
  ⟨by decide, by decide⟩

/-- C4 (corrected, amended): every summary `churn_by_payment` returns is
non-increasing in `churn_rate` from first row to last; the tie order is
not stable — the descending sort reverses an ascending sort, so rows
with equal `churn_rate` come out in reverse of their pre-sort order (see
the counterexample). -/
theorem c4_summary_sorted_desc (df : DataFrame) :
    ∀ s, churn_by_payment df payment_col_default = .ok s →
      s.Pairwise (fun a b => b.churn_rate ≤ a.churn_rate) := by
  intro s hs
  rcases hp : df.getCol payment_col_default with _ | payRaw
  · rw [churn_by_payment_none hp] at hs
    exact absurd hs (by simp)
  · rcases hf : df.getCol "churn_flag" with _ | flags
    · rw [churn_by_payment_noflag hp hf] at hs
      exact absurd hs (by simp)
    · rw [churn_by_payment_of_some hp hf] at hs
      have hs2 := Except.ok.inj hs
      rw [← hs2]
      exact (pairwise_pandasSortDesc rateLe_total rateLe_trans _).imp
        (fun h => of_decide_eq_true h)

theorem c4_summary_sorted_desc_witness :
    churn_by_payment dfTies payment_col_default =
      .ok [⟨"B", 2, 1, mkRat 1 2⟩, ⟨"A", 2, 1, mkRat 1 2⟩] ∧
    ([⟨"B", 2, 1, mkRat 1 2⟩, ⟨"A", 2, 1, mkRat 1 2⟩] : List SummaryRow).Pairwise
      (fun a b => b.churn_rate ≤ a.churn_rate) :=
  ⟨by decide, c4_summary_sorted_desc dfTies _ (by decide)⟩

/-- C7 (confirmed): when the expected column is absent, `map_churn_flag`
and `churn_by_payment` each fail with the missing-column error quoting
the first 15 actual column names; when it is present, neither function
can return a missing-column error (the only other failure,
`churn_by_payment`'s `agg` on a frame without `churn_flag`, is pandas'
own `KeyError`, a different shape without the column list). -/
theorem c7_missing_column_errors (df : DataFrame) :
    (churn_col_default ∉ df.colNames →
      map_churn_flag df churn_col_default =
        .error (.missingColumn churn_col_default (df.colNames.take 15))) ∧
    (churn_col_default ∈ df.colNames →
      ∀ c avail, map_churn_flag df churn_col_default ≠
        .error (.missingColumn c avail)) ∧
    (payment_col_default ∉ df.colNames →
      churn_by_payment df payment_col_default =
        .error (.missingColumn payment_col_default (df.colNames.take 15))) ∧
    (payment_col_default ∈ df.colNames →
      ∀ c avail, churn_by_payment df payment_col_default ≠
        .error (.missingColumn c avail)) := by
  refine ⟨?_, ?_, ?_, ?_⟩
  · intro habs
    exact map_churn_flag_none ((getCol_eq_none_iff df churn_col_default).2 habs)
  · intro hmem c avail
    rcases getCol_isSome_of_mem hmem with ⟨col, hcol⟩
    rw [map_churn_flag_of_some hcol]
    split
    · simp
    · simp
  · intro habs
    exact churn_by_payment_none ((getCol_eq_none_iff df payment_col_default).2 habs)
  · intro hmem c avail
    rcases getCol_isSome_of_mem hmem with ⟨payRaw, hp⟩
    rcases hf : df.getCol "churn_flag" with _ | flags
    · rw [churn_by_payment_noflag hp hf]
      simp
    · rw [churn_by_payment_of_some hp hf]
      simp

theorem c7_missing_column_errors_witness :
    (churn_col_default ∉ dfMissing.colNames ∧
      map_churn_flag dfMissing churn_col_default =
        .error (.missingColumn churn_col_default ["name", "plan"])) ∧
    (payment_col_default ∉ dfMissing.colNames ∧
      churn_by_payment dfMissing payment_col_default =
        .error (.missingColumn payment_col_default ["name", "plan"])) :=
  ⟨⟨by decide, ((c7_missing_column_errors dfMissing).1 (by decide)).trans (by decide)⟩,
    ⟨by decide, ((c7_missing_column_errors dfMissing).2.2.1 (by decide)).trans (by decide)⟩⟩

/-- C6 (corrected, counterexample): `map_churn_flag` does not leave the
churn column's values equal to the input's — `df[churn_col]` is
overwritten with its trimmed, lower-cased string form before the flag is
derived.  On the one-row input " Yes " the call succeeds but the
returned churn column holds "yes", not " Yes ". -/
theorem c6_churn_column_rewritten_counterexample :
    map_churn_flag dfStrip churn_col_default =
      .ok (DataFrame.mk [("churn_status_yesno", [Cell.str "yes"]),
        ("churn_flag", [Cell.int 1])]) ∧
    dfStrip.getCol "churn_status_yesno" = some [Cell.str " Yes "] ∧
    (DataFrame.mk [("churn_status_yesno", [Cell.str "yes"]),
        ("churn_flag", [Cell.int 1])]).getCol "churn_status_yesno" ≠
      some [Cell.str " Yes "] :=
  ⟨by decide, by decide, by decide⟩

/-- C6 (corrected, amended): on success `map_churn_flag` returns a copy
of the input in which the churn column is overwritten with its trimmed,
lower-cased string form, a `churn_flag` integer column is added, and
every *other* column is unchanged; the caller's frame is untouched (the
embedding is pure: the result is built with `setCol` from a copy and the
input value is never modified). -/
theorem c6_map_churn_flag_output (df : DataFrame) (col : List Cell)
    (h : df.getCol churn_col_default = some col) :
    ∀ out, map_churn_flag df churn_col_default = .ok out →
      out = (df.setCol churn_col_default ((col.map normChurn).map Cell.str)).setCol
          "churn_flag" ((col.map normChurn).map churnFlagOf) ∧
      out.getCol churn_col_default = some ((col.map normChurn).map Cell.str) ∧
      out.getCol "churn_flag" = some ((col.map normChurn).map churnFlagOf) ∧
      ∀ name, name ≠ churn_col_default → name ≠ "churn_flag" →
        out.getCol name = df.getCol name := by
  intro out hout
  rw [map_churn_flag_of_some h] at hout
  rcases hin : decide (Cell.nan ∈ (col.map normChurn).map churnFlagOf) with _ | _
  · rw [if_neg (by simpa using hin)] at hout
    have hout2 := (Except.ok.inj hout).symm
    subst hout2
    refine ⟨rfl, ?_, ?_, ?_⟩
    · rw [getCol_setCol_other _ _ (by decide : churn_col_default ≠ "churn_flag")]
      exact getCol_setCol_self df churn_col_default _
    · exact getCol_setCol_self _ "churn_flag" _
    · intro name h1 h2
      rw [getCol_setCol_other _ _ h2, getCol_setCol_other _ _ h1]
  · rw [if_pos (by simpa using hin)] at hout
    exact absurd hout (by simp)

theorem c6_map_churn_flag_output_witness :
    dfExtra.getCol churn_col_default = some [Cell.str "No"] ∧
      (DataFrame.mk [("churn_status_yesno", [Cell.str "no"]),
        ("region", [Cell.str "EU"]),
        ("churn_flag", [Cell.int 0])]).getCol "region" = dfExtra.getCol "region" :=
  ⟨by decide,
    ((c6_map_churn_flag_output dfExtra [Cell.str "No"] (by decide))
      (DataFrame.mk [("churn_status_yesno", [Cell.str "no"]),
        ("region", [Cell.str "EU"]),
        ("churn_flag", [Cell.int 0])]) (by decide)).2.2.2 "region"
      (by decide) (by decide)⟩

/-- C1 (confirmed): with the churn column present, every cell is trimmed
and lower-cased (`normChurn`) and mapped yes→1, no→0; if every row maps
the call succeeds and `churn_flag` holds exactly those 0/1 values; if
some row is unmapped the call fails with the validation error carrying
the up-to-10 most frequent offending values with their counts (each
reported count is the value's true multiplicity among unmapped cells,
and no reported value is rarer than an unreported one); and it raises
exactly when some row is unmapped. -/
theorem c1_churn_mapping (df : DataFrame) (col : List Cell)
    (h : df.getCol churn_col_default = some col) :
    let badvals := (col.map normChurn).filter (fun s => churnFlagOf s = Cell.nan)
    ((∀ c ∈ col, normChurn c = "yes" ∨ normChurn c = "no") →
      map_churn_flag df churn_col_default =
        .ok ((df.setCol churn_col_default ((col.map normChurn).map Cell.str)).setCol
          "churn_flag" (col.map (fun c =>
            if normChurn c = "yes" then Cell.int 1 else Cell.int 0)))) ∧
    ((∃ c ∈ col, ¬(normChurn c = "yes" ∨ normChurn c = "no")) →
      map_churn_flag df churn_col_default =
        .error (.unmappedValues ((value_counts badvals).take 10)) ∧
      ((value_counts badvals).take 10).length ≤ 10 ∧
      (∀ p ∈ (value_counts badvals).take 10,
        p.1 ∈ col.map normChurn ∧ churnFlagOf p.1 = Cell.nan ∧
          p.2 = badvals.count p.1) ∧
      (∀ p ∈ (value_counts badvals).take 10,
        ∀ q ∈ (value_counts badvals).drop 10, q.2 ≤ p.2)) ∧
    ((∃ e, map_churn_flag df churn_col_default = .error e) ↔
      ∃ c ∈ col, ¬(normChurn c = "yes" ∨ normChurn c = "no")) := by
  intro badvals
  have hmem : (Cell.nan ∈ (col.map normChurn).map churnFlagOf) ↔
      ∃ c ∈ col, ¬(normChurn c = "yes" ∨ normChurn c = "no") := by
    rw [List.mem_map]
    constructor
    · rintro ⟨s, hs, hsflag⟩
      rcases List.mem_map.1 hs with ⟨c, hc, rfl⟩
      exact ⟨c, hc, (churnFlagOf_eq_nan_iff _).1 hsflag⟩
    · rintro ⟨c, hc, hno⟩
      exact ⟨normChurn c, List.mem_map.2 ⟨c, hc, rfl⟩,
        (churnFlagOf_eq_nan_iff _).2 hno⟩
  refine ⟨?_, ?_, ?_⟩
  · intro hall
    have hnin : Cell.nan ∉ (col.map normChurn).map churnFlagOf := by
      rw [hmem]
      rintro ⟨c, hc, hno⟩
      exact hno (hall c hc)
    rw [map_churn_flag_of_some h, if_neg hnin]
    have hflags : (col.map normChurn).map churnFlagOf =
        col.map (fun c => if normChurn c = "yes" then Cell.int 1 else Cell.int 0) := by
      rw [List.map_map]
      refine List.map_congr_left (fun c hc => ?_)
      rcases hall c hc with hy | hn
      · simp [Function.comp, churnFlagOf, hy]
      · simp [Function.comp, churnFlagOf, hn]
    rw [hflags]
  · intro hex
    have hin : Cell.nan ∈ (col.map normChurn).map churnFlagOf := hmem.2 hex
    refine ⟨by rw [map_churn_flag_of_some h, if_pos hin], ?_, ?_, ?_⟩
    · exact List.length_take_le 10 _
    · intro p hp
      have hpv := value_counts_mem (List.take_subset 10 _ hp)
      rcases List.mem_filter.1 hpv.1 with ⟨hmm, hflag⟩
      exact ⟨hmm, of_decide_eq_true hflag, hpv.2⟩
    · exact pairwise_take_drop (value_counts_sorted _) 10
  · constructor
    · rintro ⟨e, he⟩
      by_contra hno
      have hnin : Cell.nan ∉ (col.map normChurn).map churnFlagOf := by
        rw [hmem]
        exact hno
      rw [map_churn_flag_of_some h, if_neg hnin] at he
      exact Except.noConfusion he
    · intro hex
      exact ⟨_, by rw [map_churn_flag_of_some h, if_pos (hmem.2 hex)]⟩

theorem c1_churn_mapping_witness :
    dfYesNo.getCol churn_col_default = some [Cell.str "Yes ", Cell.str " no"] ∧
      map_churn_flag dfYesNo churn_col_default =
        .ok ((dfYesNo.setCol churn_col_default
            (([Cell.str "Yes ", Cell.str " no"].map normChurn).map Cell.str)).setCol
          "churn_flag" ([Cell.str "Yes ", Cell.str " no"].map (fun c =>
            if normChurn c = "yes" then Cell.int 1 else Cell.int 0))) :=
  ⟨by decide,
    (c1_churn_mapping dfYesNo [Cell.str "Yes ", Cell.str " no"] (by decide)).1
      (by decide)⟩

/-! ## Group structure of the summary -/

theorem summary_row_spec {df : DataFrame} {payRaw flags : List Cell}
    {s : List SummaryRow}
    (hp : df.getCol payment_col_default = some payRaw)
    (hf : df.getCol "churn_flag" = some flags)
    (hs : churn_by_payment df payment_col_default = .ok s) :
    ∀ r ∈ s, ∃ k, r = mkGroupRow ((payRaw.map prepPayment).zip flags) k ∧
      k ∈ payRaw.map prepPayment := by
  rw [churn_by_payment_of_some hp hf] at hs
  have hseq := Except.ok.inj hs
  intro r hr
  rw [← hseq] at hr
  rw [mem_pandasSortDesc] at hr
  rcases List.mem_map.1 hr with ⟨k, hk, rfl⟩
  exact ⟨k, rfl, mem_firstUniques.1 ((mem_insSort strLe).1 hk)⟩

theorem group_nonempty {payRaw flags : List Cell} {k : String}
    (hlen : flags.length = payRaw.length)
    (hk : k ∈ payRaw.map prepPayment) :
    0 < (((payRaw.map prepPayment).zip flags).filter
      (fun p => p.1 = k)).length := by
  have hle : (payRaw.map prepPayment).length ≤ flags.length := by
    rw [List.length_map, hlen]
  have hfst := List.map_fst_zip (payRaw.map prepPayment) flags hle
  rw [← hfst] at hk
  rcases List.mem_map.1 hk with ⟨p, hp, hpk⟩
  exact List.length_pos_of_mem
    (List.mem_filter.2 ⟨hp, decide_eq_true hpk⟩)

theorem group_flags {payRaw flags : List Cell} {k : String}
    (hvals : ∀ x ∈ flags, x = Cell.int 0 ∨ x = Cell.int 1) :
    ∀ p ∈ ((payRaw.map prepPayment).zip flags).filter (fun p => p.1 = k),
      p.2 = Cell.int 0 ∨ p.2 = Cell.int 1 := by
  rintro ⟨a, b⟩ hp
  have hpz := (List.mem_filter.1 hp).1
  exact hvals b (List.of_mem_zip hpz).2

/-! ## `substPaymentNan` lemmas -/

theorem find?_map_name_preserving
    (g : (String × List Cell) → (String × List Cell))
    (hg : ∀ p, (g p).1 = p.1) (t : List (String × List Cell)) (m : String) :
    (t.map g).find? (fun p => p.1 = m) =
      (t.find? (fun p => p.1 = m)).map g := by
  induction t with
  | nil => rfl
  | cons q t ih =>
    by_cases hq : q.1 = m
    · rw [List.map_cons, List.find?_cons_of_pos _ (by simp [hg, hq]),
        List.find?_cons_of_pos _ (by simpa using hq)]
      rfl
    · rw [List.map_cons, List.find?_cons_of_neg _ (by simp [hg, hq]),
        List.find?_cons_of_neg _ (by simpa using hq), ih]

theorem colNames_substPaymentNan (df : DataFrame) (c : Cell) :
    (substPaymentNan df c).colNames = df.colNames := by
  simp only [substPaymentNan, DataFrame.colNames, List.map_map]
  refine List.map_congr_left (fun p _ => ?_)
  by_cases hp : p.1 = payment_col_default <;> simp [Function.comp, hp]

theorem getCol_substPaymentNan (df : DataFrame) (c : Cell) (m : String) :
    (substPaymentNan df c).getCol m =
      if m = payment_col_default then
        (df.getCol m).map (List.map (fun x => if x = Cell.nan then c else x))
      else df.getCol m := by
  have hg : ∀ p : String × List Cell,
      ((fun p => if p.1 = payment_col_default then
        (p.1, p.2.map (fun x => if x = Cell.nan then c else x)) else p) p).1 = p.1 := by
    intro p
    by_cases hp : p.1 = payment_col_default <;> simp [hp]
  show (((df.cols.map _).find? (fun p => p.1 = m)).map Prod.snd) = _
  rw [find?_map_name_preserving _ hg df.cols m]
  rcases hfind : df.cols.find? (fun p => decide (p.1 = m)) with _ | q
  · rw [DataFrame.getCol, hfind]
    by_cases hm : m = payment_col_default <;> simp [hm]
  · have hq := List.find?_some hfind
    have hqm : q.1 = m := of_decide_eq_true hq
    rw [DataFrame.getCol, hfind]
    by_cases hm : m = payment_col_default
    · rw [if_pos hm]
      have hqpay : q.1 = payment_col_default := hqm.trans hm
      simp [hqpay]
    · rw [if_neg hm]
      have hqpay : ¬ q.1 = payment_col_default := by rw [hqm]; exact hm
      simp [hqpay]

/-- C3 (confirmed): with a 0/1 `churn_flag` column aligned with the
payment column, every summary group's `users` equals its churned-row
count plus its not-churned-row count, every `churn_rate` lies in
`[0, 1]`, and the group sizes sum to the row count of the input — no row
is dropped (missing payment values are grouped under the `astype(str)`
image "nan", not discarded). -/
theorem c3_aggregation_invariants (df : DataFrame) (payRaw flags : List Cell)
    (hp : df.getCol payment_col_default = some payRaw)
    (hf : df.getCol "churn_flag" = some flags)
    (hlen : flags.length = payRaw.length)
    (hvals : ∀ x ∈ flags, x = Cell.int 0 ∨ x = Cell.int 1) :
    ∀ s, churn_by_payment df payment_col_default = .ok s →
      (∀ r ∈ s,
        r.users = (((payRaw.map prepPayment).zip flags).filter
            (fun p => p.1 = r.payment_status)).countP
              (fun p => p.2 = Cell.int 1) +
          (((payRaw.map prepPayment).zip flags).filter
            (fun p => p.1 = r.payment_status)).countP
              (fun p => p.2 = Cell.int 0) ∧
        0 ≤ r.churn_rate ∧ r.churn_rate ≤ 1) ∧
      (s.map SummaryRow.users).sum = payRaw.length := by
  intro s hs
  constructor
  · intro r hr
    rcases summary_row_spec hp hf hs r hr with ⟨k, rfl, hkpay⟩
    rw [mkGroupRow_payment_status, mkGroupRow_users, mkGroupRow_churn_rate]
    have hgflags := @group_flags payRaw flags k hvals
    refine ⟨?_, ?_⟩
    · exact flags_length_split _ hgflags
    · exact churnRate_bounds _ _ (group_nonempty hlen hkpay)
        (flags_sum_nonneg _ hgflags) (flags_sum_le_length _ hgflags)
  · rw [churn_by_payment_of_some hp hf] at hs
    rw [← Except.ok.inj hs]
    rw [((pandasSortDesc_perm rateLe _).map SummaryRow.users).sum_eq, List.map_map]
    have hnd : (insSort strLe (firstUniques (payRaw.map prepPayment))).Nodup :=
      (insSort_perm strLe _).nodup_iff.2 (nodup_firstUniques _)
    have hcov : ∀ p ∈ (payRaw.map prepPayment).zip flags,
        p.1 ∈ insSort strLe (firstUniques (payRaw.map prepPayment)) := by
      rintro ⟨a, b⟩ hpz
      exact (mem_insSort strLe).2
        (mem_firstUniques.2 (List.of_mem_zip hpz).1)
    rw [show (insSort strLe (firstUniques (payRaw.map prepPayment))).map
        (SummaryRow.users ∘ mkGroupRow ((payRaw.map prepPayment).zip flags)) =
      (insSort strLe (firstUniques (payRaw.map prepPayment))).map
        (fun k => ((((payRaw.map prepPayment).zip flags)).filter
          (fun p => decide (p.1 = k))).length) from rfl]
    rw [sum_group_sizes _ _ hnd hcov]
    simp [List.length_zip, List.length_map, hlen]

theorem c3_aggregation_invariants_witness :
    dfFlags.getCol payment_col_default =
      some [Cell.str "On-time", Cell.str "On-time", Cell.str "Delayed"] ∧
    (([⟨"Delayed", 1, 1, 1⟩, ⟨"On-time", 2, 1, mkRat 1 2⟩] : List SummaryRow).map
      SummaryRow.users).sum = 3 :=
  ⟨by decide,
    ((c3_aggregation_invariants dfFlags
        [Cell.str "On-time", Cell.str "On-time", Cell.str "Delayed"]
        [Cell.int 1, Cell.int 0, Cell.int 1] (by decide) (by decide) (by decide)
        (by decide))
      [⟨"Delayed", 1, 1, 1⟩, ⟨"On-time", 2, 1, mkRat 1 2⟩] (by decide)).2⟩

/-- C8 (corrected, counterexample): at a feasible group — 203 churned
among 400 users — the program's float64 evaluation of
`round(churned / users, 3)` yields the double `4566650022153683 / 2^53`
(which prints as 0.507: the scaled value is the double
507.49999999999994…, strictly under the exact half, so `rint` picks
507), while rounding the exact rational 0.5075 half-to-even yields
0.508.  So `churn_rate` does not in general equal the exact rational
`churned / users` rounded half-to-even to 3 decimals. -/
theorem c8_float64_counterexample :
    NpRound3Float 203 400 (mkRat 4566650022153683 (2 ^ 53)) ∧
    round3 ((203 : ℚ) / 400) = mkRat 508 1000 ∧
    mkRat 4566650022153683 (2 ^ 53) ≠ mkRat 508 1000 := by
  refine ⟨?_, ?_, by decide⟩
  · refine ⟨4571153621781053, 53, 8928034417541119, 44, 507,
      4566650022153683, 53, ?_, ?_, ?_, ?_, rfl⟩
    · rw [show ((203 : Int) : ℚ) / ((400 : Int) : ℚ) = mkRat 203 400 by
        rw [Rat.mkRat_eq_div]; norm_num]
      exact ⟨by decide, by decide, by decide, by decide, by decide⟩
    · exact ⟨by decide, by decide, by decide, by decide, by decide⟩
    · have hb := roundHalfEven_eq_rintQ 8928034417541119 (2 ^ 44) (by positivity)
      have hmk : mkRat 8928034417541119 (2 ^ 44) =
          ((8928034417541119 : Int) : ℚ) / ((2 ^ 44 : Nat) : ℚ) :=
        Rat.mkRat_eq_div _ _
      rw [hmk, ← hb]
      decide
    · exact ⟨by decide, by decide, by decide, by decide, by decide⟩
  · have harg : (1000 : ℚ) * ((203 : ℚ) / 400) =
        ((1015 : Int) : ℚ) / ((2 : Nat) : ℚ) := by norm_num
    rw [round3, harg, ← roundHalfEven_eq_rintQ 1015 2 (by norm_num)]
    rw [show roundHalfEven 1015 ((2 : Nat) : Int) = 508 by decide]
    rw [Rat.mkRat_eq_div]
    norm_num

/-- C8 (corrected, amended): in exact rational arithmetic every group's
`churn_rate` is the exact rational `churned / users` rounded to 3
decimal places with round-half-to-even semantics (`round3` is the
spec-level scale / round-half-even / unscale through `Int.floor`).  The
program evaluates the same formula in float64, which realises this
rounding only up to binary64 representation error: at an exact half the
error can select the other thousandth — see
`c8_float64_counterexample` (churned 203 of users 400: float64 gives
0.507, exact half-even gives 0.508). -/
theorem c8_churn_rate_rounding (df : DataFrame) :
    ∀ s, churn_by_payment df payment_col_default = .ok s →
      ∀ r ∈ s, r.churn_rate = round3 ((r.churned : ℚ) / (r.users : ℚ)) := by
  intro s hs r hr
  rcases hp : df.getCol payment_col_default with _ | payRaw
  · rw [churn_by_payment_none hp] at hs
    exact absurd hs (by simp)
  rcases hf : df.getCol "churn_flag" with _ | flags
  · rw [churn_by_payment_noflag hp hf] at hs
    exact absurd hs (by simp)
  rcases summary_row_spec hp hf hs r hr with ⟨k, rfl, hkpay⟩
  rw [mkGroupRow_churn_rate, mkGroupRow_churned, mkGroupRow_users]
  rcases Nat.eq_zero_or_pos
      ((((payRaw.map prepPayment).zip flags).filter
        (fun p => p.1 = k)).length) with hz | hpos
  · rw [List.length_eq_zero.1 hz]
    simp only [List.map_nil, List.sum_nil, List.length_nil]
    rw [show ((0 : Nat) : Int) = (0 : Int) from rfl]
    rw [show roundHalfEven (1000 * 0) 0 = 0 by decide]
    rw [show ((0 : Int) : ℚ) = 0 from rfl, Nat.cast_zero, div_zero, round3]
    rw [mul_zero, show rintQ 0 = 0 by rw [rintQ]; norm_num [Int.fract_zero]]
    rw [Rat.mkRat_eq_div]
    norm_num
  · exact churnRate_eq_round3 _ _ hpos

theorem c8_churn_rate_rounding_witness :
    churn_by_payment dfTies payment_col_default =
      .ok [⟨"B", 2, 1, mkRat 1 2⟩, ⟨"A", 2, 1, mkRat 1 2⟩] ∧
    (⟨"B", 2, 1, mkRat 1 2⟩ : SummaryRow).churn_rate =
      round3 (((1 : Int) : ℚ) / ((2 : Nat) : ℚ)) :=
  ⟨by decide,
    c8_churn_rate_rounding dfTies
      [⟨"B", 2, 1, mkRat 1 2⟩, ⟨"A", 2, 1, mkRat 1 2⟩] (by decide)
      ⟨"B", 2, 1, mkRat 1 2⟩ (by decide)⟩

/-- C10 (confirmed): `churn_by_payment` first renders the payment column
with `astype(str)`, which turns every missing value into the literal
string "nan"; replacing the missing payment cells by `Cell.str "nan"`
(or any cell whose trimmed string form is "nan", such as " nan ")
changes nothing in the result, and a column holding a missing value, a
literal "nan" and a padded " nan " produces the single group "nan". -/
theorem c10_nan_payment_group :
    (∀ (df : DataFrame) (c : Cell), prepPayment c = prepPayment Cell.nan →
      churn_by_payment (substPaymentNan df c) payment_col_default =
        churn_by_payment df payment_col_default) ∧
    prepPayment Cell.nan = "nan" ∧
    prepPayment (Cell.str "nan") = "nan" ∧
    prepPayment (Cell.str " nan ") = "nan" ∧
    churn_by_payment dfNan payment_col_default =
      .ok [⟨"nan", 3, 1, mkRat 333 1000⟩] := by
  refine ⟨?_, by decide, by decide, by decide, by decide⟩
  intro df c hc
  have hflag_ne : ("churn_flag" : String) ≠ payment_col_default := by decide
  have hflag := getCol_substPaymentNan df c "churn_flag"
  rw [if_neg hflag_ne] at hflag
  have hpayc := getCol_substPaymentNan df c payment_col_default
  rw [if_pos rfl] at hpayc
  rcases hp : df.getCol payment_col_default with _ | payRaw
  · rw [hp] at hpayc
    simp only [Option.map_none'] at hpayc
    rw [churn_by_payment_none hp, churn_by_payment_none hpayc,
      colNames_substPaymentNan]
  · rw [hp] at hpayc
    simp only [Option.map_some'] at hpayc
    rcases hf : df.getCol "churn_flag" with _ | flags
    · rw [hf] at hflag
      rw [churn_by_payment_noflag hp hf, churn_by_payment_noflag hpayc hflag]
    · rw [hf] at hflag
      rw [churn_by_payment_of_some hp hf, churn_by_payment_of_some hpayc hflag]
      have hpay_eq : (payRaw.map (fun x => if x = Cell.nan then c else x)).map
          prepPayment = payRaw.map prepPayment := by
        rw [List.map_map]
        refine List.map_congr_left (fun x _ => ?_)
        by_cases hx : x = Cell.nan
        · simp [Function.comp, hx, hc]
        · simp [Function.comp, hx]
      rw [hpay_eq]

theorem c10_nan_payment_group_witness :
    prepPayment (Cell.str "nan") = prepPayment Cell.nan ∧
      churn_by_payment (substPaymentNan dfNan (Cell.str "nan"))
          payment_col_default =
        churn_by_payment dfNan payment_col_default :=
  ⟨by decide, c10_nan_payment_group.1 dfNan (Cell.str "nan") (by decide)⟩
